import Mathlib

/-!
Verification development for `books_scraper.py`, a two-level crawl of a
paginated book catalog.  The Python source is shallowly embedded: pure
helper functions (`parse_price`, `parse_rating`, `parse_availability`)
become Lean functions, HTML documents become explicit structures holding
exactly the nodes the scraper selects, the HTTP fetcher becomes an
explicit environment `String → Option Doc` (`none` models a fetch
failure, on which `get_soup` raises), and the unbounded `while True`
pagination loop becomes a fuel-indexed recursion that returns `none`
when fuel runs out (modelling non-termination) and `some` with the
loop's outcome otherwise.  Exceptions raised by the Python code are
modelled with `Except ScrapeError`.

`urllib.parse.urljoin` is embedded from CPython's implementation,
restricted to URLs without query strings, fragments or params (the only
kind the scraper handles); scheme recognition uses the `://` separator.
All string work is done on `List Char` with structural recursion so
that every definition reduces in the kernel.
-/

namespace BooksScraper

/-! ## Low-level string helpers (structural, kernel-reducible) -/

/-- Split a character list at the first occurrence of `"://"`, returning
the part before and the part after; `none` when no `"://"` occurs.
Models the scheme separator used by `urllib.parse` on our URL domain. -/
def findSchemeSplit : List Char → Option (List Char × List Char)
  | [] => none
  | ':' :: '/' :: '/' :: rest => some ([], rest)
  | c :: rest => (findSchemeSplit rest).map (fun p => (c :: p.1, p.2))

/-- Split on `'/'`, mirroring Python's `str.split('/')`: the result is
always non-empty and empty fields are kept. -/
def splitSlash : List Char → List (List Char)
  | [] => [[]]
  | '/' :: rest => [] :: splitSlash rest
  | c :: rest =>
    match splitSlash rest with
    | [] => [[c]]
    | h :: t => (c :: h) :: t

/-- Join with `'/'`, mirroring Python's `'/'.join`. -/
def joinSlash : List (List Char) → List Char
  | [] => []
  | [s] => s
  | s :: rest => s ++ '/' :: joinSlash rest

/-! ## `urllib.parse` model -/

/-- Schemes for which CPython's `urljoin` performs relative resolution
(`urllib.parse.uses_relative`). -/
def uses_relative : List (List Char) :=
  ["", "ftp", "http", "gopher", "nntp", "imap", "wais", "file", "https",
   "shttp", "mms", "prospero", "rtsp", "rtspu", "sftp", "svn", "svn+ssh",
   "ws", "wss"].map String.toList

/-- Schemes that carry a network location (`urllib.parse.uses_netloc`). -/
def uses_netloc : List (List Char) :=
  ["", "ftp", "http", "gopher", "nntp", "telnet", "imap", "wais", "file",
   "mms", "https", "shttp", "snews", "prospero", "rtsp", "rtspu", "rsync",
   "svn", "svn+ssh", "sftp", "nfs", "git", "git+ssh", "ws", "wss",
   "itms-services"].map String.toList

/-- `urllib.parse.urlparse` restricted to URLs without query/fragment/params:
returns `(scheme, netloc, path)`.  A URL has a scheme and netloc exactly
when it contains `"://"`; otherwise the whole text is the path. -/
def urlparse (s : List Char) : List Char × List Char × List Char :=
  match findSchemeSplit s with
  | none => ([], [], s)
  | some (scheme, rest) =>
    match splitSlash rest with
    | [] => (scheme, [], [])
    | netloc :: segs =>
      (scheme, netloc, if segs = [] then [] else '/' :: joinSlash segs)

/-- `urllib.parse.urlunsplit` restricted to `(scheme, netloc, path)`. -/
def urlunsplit (scheme netloc path : List Char) : List Char :=
  let url :=
    if netloc ≠ [] ∨ path.take 2 = ['/', '/'] then
      let p := if path ≠ [] ∧ path.take 1 ≠ ['/'] then '/' :: path else path
      '/' :: '/' :: netloc ++ p
    else path
  if scheme ≠ [] then scheme ++ ':' :: url else url

/-- The slice assignment `segments[1:-1] = filter(None, segments[1:-1])`
from CPython's `urljoin`: drop empty segments, keeping the first and the
last element untouched. -/
def filterMiddle : List (List Char) → List (List Char)
  | [] => []
  | [a] => [a]
  | a :: b :: rest =>
    a :: ((b :: rest).dropLast.filter (fun s => s ≠ [])) ++ [(b :: rest).getLastD []]

/-- The segment-resolution loop of CPython's `urljoin`: `".."` pops the
last resolved segment (ignoring underflow), `"."` is skipped, anything
else is appended. -/
def resolveSegments (segs : List (List Char)) : List (List Char) :=
  segs.foldl
    (fun acc seg =>
      if seg = ['.', '.'] then acc.dropLast
      else if seg = ['.'] then acc
      else acc ++ [seg]) []

/-- CPython's `urljoin` on `(scheme, netloc, path)`-only URLs, over char
lists.  Faithful to `urllib/parse.py`: empty base or empty url returned
as-is, scheme/netloc inheritance, base-directory merge, dot-segment
resolution, and the trailing-slash fix-up for a final `"."`/`".."`. -/
def urljoinL (base url : List Char) : List Char :=
  if base = [] then url
  else if url = [] then base
  else
    let (bscheme, bnetloc, bpath) := urlparse base
    let (uscheme, unetloc, upath) := urlparse url
    let scheme := if uscheme = [] then bscheme else uscheme
    if scheme ≠ bscheme ∨ scheme ∉ uses_relative then url
    else if scheme ∈ uses_netloc ∧ unetloc ≠ [] then
      urlunsplit scheme unetloc upath
    else
      let netloc := if scheme ∈ uses_netloc then bnetloc else unetloc
      if upath = [] then urlunsplit scheme netloc bpath
      else
        let base_parts0 := splitSlash bpath
        let base_parts :=
          if base_parts0.getLastD [] ≠ [] then base_parts0.dropLast else base_parts0
        let segments :=
          if upath.take 1 = ['/'] then splitSlash upath
          else filterMiddle (base_parts ++ splitSlash upath)
        let resolved0 := resolveSegments segments
        let resolved :=
          if segments.getLastD [] = ['.'] ∨ segments.getLastD [] = ['.', '.'] then
            resolved0 ++ [[]]
          else resolved0
        let path := joinSlash resolved
        urlunsplit scheme netloc (if path = [] then ['/'] else path)

/-- `urllib.parse.urljoin` as called by the scraper, on `String`. -/
def urljoin (base url : String) : String :=
  String.mk (urljoinL base.toList url.toList)

/-! ## Field parsers (`parse_price`, `parse_rating`, `parse_availability`) -/

/-- Numeric value of a digit string, as Python's `int`/`float` read it. -/
def digitsVal (l : List Char) : Nat :=
  l.foldl (fun a c => 10 * a + (c.toNat - 48)) 0

/-- `re.sub(r"[^\d.]", "", text)`: keep only digits and dots. -/
def stripNonNumeric (text : String) : List Char :=
  text.toList.filter (fun c => c.isDigit || c == '.')

/-- Python's `float` on a digits-and-dots-only string (the only inputs
`parse_price` feeds it): an optional integer part, at most one dot, an
optional fractional part, at least one digit overall; `ValueError`
(here `none`) otherwise.  The value of `a.b` is `(a ++ b) / 10^|b|`. -/
def pyFloat (s : List Char) : Option ℚ :=
  let intPart := s.takeWhile (fun c => c != '.')
  match s.dropWhile (fun c => c != '.') with
  | [] => if s = [] then none else some (mkRat (digitsVal s) 1)
  | '.' :: frac =>
    if frac.any (fun c => c == '.') then none
    else if intPart = [] ∧ frac = [] then none
    else some (mkRat (digitsVal (intPart ++ frac)) (10 ^ frac.length))
  | _ :: _ => none

/-- `parse_price`: `float(re.sub(r"[^\d.]", "", text))`, with `float`'s
`ValueError` modelled as `none` (the spec's `ParseError`). -/
def parse_price (text : String) : Option ℚ :=
  pyFloat (stripNonNumeric text)

/-- The fixed CSS-class → rating table of `parse_rating`. -/
def ratingMapping : List (String × Nat) :=
  [("One", 1), ("Two", 2), ("Three", 3), ("Four", 4), ("Five", 5)]

/-- `parse_rating`: first class name that appears in the mapping wins, in
the order the classes are given; `pd.NA` (here `none`) when none match. -/
def parse_rating : List String → Option Nat
  | [] => none
  | c :: rest =>
    match ratingMapping.lookup c with
    | some v => some v
    | none => parse_rating rest

/-- `parse_availability`: `re.search(r"(\d+)", text)` finds the first
maximal run of digits; its integer value, else `pd.NA` (here `none`). -/
def parse_availability (text : String) : Option Nat :=
  match text.toList.dropWhile (fun c => !c.isDigit) with
  | [] => none
  | l => some (digitsVal (l.takeWhile (fun c => c.isDigit)))

/-- Python's `str.strip()` on the scraper's text domain. -/
def pyStrip (s : String) : String :=
  String.mk (((s.toList.dropWhile Char.isWhitespace).reverse.dropWhile
    Char.isWhitespace).reverse)

/-! ## Documents, items, environment -/

/-- The `<a>` inside a product card's `<h3>` (`art.h3.a`).  Both HTML
attributes are optional: `.get("title", "")` / `.get("href", "")`
default missing attributes to `""` without raising. -/
structure Anchor where
  titleAttr : Option String
  hrefAttr : Option String
deriving Repr, DecidableEq

/-- One `article.product_pod` card as the scraper selects from it.
Each `Option` field is `none` when the corresponding node (or, for the
rating, its `class` attribute) is absent — in which case the unguarded
access in the source raises (`AttributeError`/`TypeError`/`KeyError`),
the spec's `MalformedItemError`.
* `anchor`: `art.h3.a`;
* `priceText`: text of `art.select_one("p.price_color")`;
* `ratingClasses`: `art.select_one("p.star-rating")["class"]`;
* `availabilityText`: text of `art.select_one("p.instock.availability")`. -/
structure Card where
  anchor : Option Anchor
  priceText : Option String
  ratingClasses : Option (List String)
  availabilityText : Option String
deriving Repr, DecidableEq

/-- A parsed page (`BeautifulSoup` document) holding exactly the nodes
the scraper selects.  List pages and detail pages are the same type, as
in the source, where any soup answers every selector:
* `cards`: the `article.product_pod` matches, in document order;
* `upcCell`: text of `table.table.table-striped tr:nth-of-type(1) td`,
  `none` when `select_one` finds nothing;
* `crumbs`: texts of `ul.breadcrumb li a, ul.breadcrumb li.active`;
* `nextA`: `li.next a` — `none` when absent, otherwise the anchor's
  optional `href` attribute (`.get("href", "")` defaults to `""`). -/
structure Doc where
  cards : List Card
  upcCell : Option String
  crumbs : List String
  nextA : Option (Option String)
deriving Repr, DecidableEq

/-- One output row of `scrape_books`. -/
structure CatalogItem where
  title : String
  price : ℚ
  rating : Option Nat
  availability : Option Nat
  detailURL : String
  upc : String
  category : String
deriving Repr, DecidableEq

/-- The exceptions the crawl can die of: a failed `get_soup` (non-2xx or
transport error), unguarded access to a missing card node
(`MalformedItemError` in the spec), or `float`'s `ValueError`
(`ParseError` in the spec). -/
inductive ScrapeError where
  | fetchError (url : String)
  | malformedItem
  | parseError (text : String)
deriving Repr, DecidableEq

/-- The page environment standing for the network: `get_soup` returns
the document at a URL, or raises — `none` — on any fetch failure. -/
def Env : Type := String → Option Doc

/-- `BASE = "http://books.toscrape.com/"`. -/
def BASE : String := "http://books.toscrape.com/"

/-! ## The crawl (`scrape_books`) -/

/-- The body of the `for art in soup.select("article.product_pod")` loop
(source lines 86–116), for one card on the list page at `url`:
title/href from the card anchor, detail URL by `urljoin` against the
*current* page URL, price/rating/availability parsed from the card,
then the detail page fetched and UPC/category read from it, in exactly
the source's order of fallible operations. -/
def processCard (env : Env) (url : String) (art : Card) :
    Except ScrapeError CatalogItem :=
  match art.anchor with
  | none => .error .malformedItem
  | some a =>
    let title := pyStrip (a.titleAttr.getD "")
    let rel_detail := a.hrefAttr.getD ""
    let detail_url := urljoin url rel_detail
    match art.priceText with
    | none => .error .malformedItem
    | some priceText =>
      match parse_price priceText with
      | none => .error (.parseError priceText)
      | some price =>
        match art.ratingClasses with
        | none => .error .malformedItem
        | some classes =>
          let rating := parse_rating classes
          match art.availabilityText with
          | none => .error .malformedItem
          | some availabilityText =>
            let availability := parse_availability availabilityText
            match env detail_url with
            | none => .error (.fetchError detail_url)
            | some d =>
              let upc := match d.upcCell with | some t => t | none => ""
              let category :=
                if 3 ≤ d.crumbs.length then d.crumbs.getD 2 "" else "Books"
              .ok { title := title, price := price, rating := rating,
                    availability := availability, detailURL := detail_url,
                    upc := upc, category := category }

/-- All cards of one list page, in document order; the first raising
card aborts the whole crawl, as the unguarded source does. -/
def processCards (env : Env) (url : String) :
    List Card → Except ScrapeError (List CatalogItem)
  | [] => .ok []
  | art :: rest =>
    match processCard env url art with
    | .error e => .error e
    | .ok item =>
      match processCards env url rest with
      | .error e => .error e
      | .ok items => .ok (item :: items)

/-- The `while True` pagination loop (source lines 82–124), indexed by
fuel since the source loop is unbounded.  Returns the list of list-page
URLs passed to `get_soup` so far, paired with `none` when the fuel ran
out before the loop finished (modelling non-termination) or
`some` of the loop's outcome: the accumulated rows on normal exit
(`break` when `li.next a` is absent), or the exception that aborted the
crawl.  A present next link is resolved with `urljoin` against the
current page URL, `href` defaulting to `""`. -/
def crawlSteps (env : Env) :
    Nat → String → List CatalogItem →
    List String × Option (Except ScrapeError (List CatalogItem))
  | 0, _, _ => ([], none)
  | fuel + 1, url, rows =>
    match env url with
    | none => ([url], some (.error (.fetchError url)))
    | some soup =>
      match processCards env url soup.cards with
      | .error e => ([url], some (.error e))
      | .ok items =>
        match soup.nextA with
        | none => ([url], some (.ok (rows ++ items)))
        | some href? =>
          let next := crawlSteps env fuel (urljoin url (href?.getD "")) (rows ++ items)
          (url :: next.1, next.2)

/-- `scrape_books(start_url)`: run the pagination loop from `start_url`
with an empty row accumulator and the given fuel; the resulting rows
are the `ResultSet` (the DataFrame's rows, in insertion order). -/
def scrape_books (env : Env) (fuel : Nat) (start_url : String) :
    Option (Except ScrapeError (List CatalogItem)) :=
  (crawlSteps env fuel start_url []).2

/-- The list-page URLs `scrape_books` passes to `get_soup`. -/
def listFetches (env : Env) (fuel : Nat) (start_url : String) :
    List String :=
  (crawlSteps env fuel start_url []).1

/-! ## Spec-side definitions (stated from the spec's words, to be
compared with the source-derived functions above) -/

/-- Spec-side: the stripped text "is a valid decimal numeral" — at least
one digit and at most one decimal point (on `parse_price`'s inputs
nothing but digits and points remains). -/
def isValidDecimal (s : List Char) : Bool :=
  s.any (fun c => c.isDigit) && decide (s.count '.' ≤ 1)

/-- Number of digits after the decimal point (0 when there is none). -/
def fracLength (s : List Char) : Nat :=
  match s.dropWhile (fun c => c != '.') with
  | [] => 0
  | _ :: t => t.length

/-- Spec-side: the numeric value of a decimal numeral — all its digits
read as an integer, scaled down by ten to the number of fractional
digits. -/
def decimalValue (s : List Char) : ℚ :=
  mkRat (digitsVal (s.filter (fun c => c.isDigit))) (10 ^ fracLength s)

/-- Spec-side: Category is the element at index 2 (zero-based) of the
breadcrumb-trail label sequence when it has at least 3 elements, else
the fixed fallback `"Books"`. -/
def categoryOfTrail (crumbs : List String) : String :=
  if 3 ≤ crumbs.length then crumbs.getD 2 "Books" else "Books"

/-- Spec-side: iterating next-link resolution from a URL reaches, within
`n` fetches, a page that ends the walk — either a list page whose
document has no next-link element, or a URL whose fetch fails (which
also ends the walk, with an error). -/
def nextChainEnds (env : Env) : Nat → String → Bool
  | 0, _ => false
  | n + 1, url =>
    match env url with
    | none => true
    | some doc =>
      match doc.nextA with
      | none => true
      | some href? => nextChainEnds env n (urljoin url (href?.getD ""))

/-! ## Concrete fixture pages and environments -/

/-- A well-formed product card, as on the real site. -/
def cardA : Card :=
  { anchor := some { titleAttr := some " A Light in the Attic "
                   , hrefAttr := some "a-light-in-the-attic_1000/index.html" }
  , priceText := some "£51.77"
  , ratingClasses := some ["star-rating", "Three"]
  , availabilityText := some "In stock (22 available)" }

/-- The matching detail page for `cardA`. -/
def detailDocA : Doc :=
  { cards := [], upcCell := some "a897fe39b1053632"
  , crumbs := ["Home", "Books", "Poetry", "A Light in the Attic"]
  , nextA := none }

/-- A single list page holding `cardA`, with no next link. -/
def listDocA : Doc :=
  { cards := [cardA], upcCell := none, crumbs := [], nextA := none }

/-- One-page happy-path environment. -/
def envA : Env := fun u =>
  if u = "http://books.toscrape.com/" then some listDocA
  else if u = "http://books.toscrape.com/a-light-in-the-attic_1000/index.html" then
    some detailDocA
  else none

/-- The row `envA`'s crawl produces. -/
def itemA : CatalogItem :=
  { title := "A Light in the Attic", price := mkRat 5177 100
  , rating := some 3, availability := some 22
  , detailURL := "http://books.toscrape.com/a-light-in-the-attic_1000/index.html"
  , upc := "a897fe39b1053632", category := "Poetry" }

/-- A card whose title anchor has no `href` attribute. -/
def cardB : Card :=
  { anchor := some { titleAttr := some "Untitled Link", hrefAttr := none }
  , priceText := some "£10.00"
  , ratingClasses := some ["star-rating", "One"]
  , availabilityText := some "In stock" }

/-- A list page holding `cardB`; it has no product-attributes table, a
two-element breadcrumb, and no next link, so it also serves as the
"detail" page `cardB`'s empty href resolves back to. -/
def listDocB : Doc :=
  { cards := [cardB], upcCell := none, crumbs := ["Home", "Books"], nextA := none }

/-- Environment in which the only page is `listDocB`. -/
def envB : Env := fun u =>
  if u = "http://example.org/shop/index.html" then some listDocB else none

/-- The row `envB`'s crawl produces: enriched from the list page itself. -/
def itemB : CatalogItem :=
  { title := "Untitled Link", price := mkRat 1000 100
  , rating := some 1, availability := none
  , detailURL := "http://example.org/shop/index.html"
  , upc := "", category := "Books" }

/-- A card whose title anchor has no `title` attribute. -/
def cardNT : Card :=
  { anchor := some { titleAttr := none, hrefAttr := some "d.html" }
  , priceText := some "£5.00"
  , ratingClasses := some []
  , availabilityText := some "" }

/-- Detail page for `cardNT`. -/
def detailNT : Doc :=
  { cards := [], upcCell := some "u1"
  , crumbs := ["Home", "Books", "Fiction", "X"], nextA := none }

/-- List page holding `cardNT`, no next link. -/
def listNT : Doc :=
  { cards := [cardNT], upcCell := none, crumbs := [], nextA := none }

/-- Environment whose one card lacks a `title` attribute. -/
def envNT : Env := fun u =>
  if u = "http://t/" then some listNT
  else if u = "http://t/d.html" then some detailNT
  else none

/-- The row `envNT`'s crawl produces: its `Title` is empty. -/
def itemNT : CatalogItem :=
  { title := "", price := mkRat 500 100
  , rating := none, availability := none
  , detailURL := "http://t/d.html", upc := "u1", category := "Fiction" }

/-- A card with no price node at all. -/
def cardNP : Card :=
  { anchor := some { titleAttr := some "T", hrefAttr := some "x.html" }
  , priceText := none
  , ratingClasses := some []
  , availabilityText := some "" }

/-- List page holding the priceless `cardNP`. -/
def listNP : Doc :=
  { cards := [cardNP], upcCell := none, crumbs := [], nextA := none }

/-- Environment whose one list page has a card with no price node. -/
def envNP : Env := fun u =>
  if u = "http://t2/" then some listNP else none

/-- A list page whose next link is present but carries no `href`
attribute: `.get("href", "")` yields `""`, which resolves back to the
page's own URL. -/
def loopDoc : Doc :=
  { cards := [], upcCell := none, crumbs := [], nextA := some none }

/-- The URL `loopDoc` lives at. -/
def loopUrl : String := "http://loop.example/page.html"

/-- Environment in which the next link of `loopDoc` revisits `loopUrl`
forever. -/
def envLoop : Env := fun u =>
  if u = loopUrl then some loopDoc else none

/-- First of two chained empty list pages. -/
def pageDoc1 : Doc :=
  { cards := [], upcCell := none, crumbs := []
  , nextA := some (some "page-2.html") }

/-- Second, final list page. -/
def pageDoc2 : Doc :=
  { cards := [], upcCell := none, crumbs := [], nextA := none }

/-- Two-page pagination environment. -/
def envP : Env := fun u =>
  if u = "http://shop.example/catalogue/page-1.html" then some pageDoc1
  else if u = "http://shop.example/catalogue/page-2.html" then some pageDoc2
  else none

/-! ## Supporting lemmas -/

/-- Resolving the empty reference returns the base URL unchanged. -/
theorem urljoin_empty_ref (u : String) : urljoin u "" = u := by
  unfold urljoin urljoinL
  cases u with
  | mk data =>
    cases data with
    | nil => rfl
    | cons c cs => simp [String.toList]

/-- Inversion for a successful `processCard`: which nodes must have been
present and how each output field was computed from them. -/
theorem processCard_ok_inv (env : Env) (url : String) (art : Card)
    (item : CatalogItem) (h : processCard env url art = .ok item) :
    ∃ a priceText classes availText d,
      art.anchor = some a ∧
      art.priceText = some priceText ∧
      art.ratingClasses = some classes ∧
      art.availabilityText = some availText ∧
      env (urljoin url (a.hrefAttr.getD "")) = some d ∧
      parse_price priceText = some item.price ∧
      item.title = pyStrip (a.titleAttr.getD "") ∧
      item.detailURL = urljoin url (a.hrefAttr.getD "") ∧
      item.rating = parse_rating classes ∧
      item.availability = parse_availability availText ∧
      item.upc = (match d.upcCell with | some t => t | none => "") ∧
      item.category = (if 3 ≤ d.crumbs.length then d.crumbs.getD 2 "" else "Books") := by
  unfold processCard at h
  cases ha : art.anchor with
  | none => simp only [ha] at h; exact absurd h (by simp)
  | some a =>
    simp only [ha] at h
    cases hp : art.priceText with
    | none => simp only [hp] at h; exact absurd h (by simp)
    | some priceText =>
      simp only [hp] at h
      cases hpp : parse_price priceText with
      | none => simp only [hpp] at h; exact absurd h (by simp)
      | some price =>
        simp only [hpp] at h
        cases hr : art.ratingClasses with
        | none => simp only [hr] at h; exact absurd h (by simp)
        | some classes =>
          simp only [hr] at h
          cases hav : art.availabilityText with
          | none => simp only [hav] at h; exact absurd h (by simp)
          | some availText =>
            simp only [hav] at h
            cases hd : env (urljoin url (a.hrefAttr.getD "")) with
            | none => simp only [hd] at h; exact absurd h (by simp)
            | some d =>
              simp only [hd] at h
              simp only [Except.ok.injEq] at h
              subst h
              exact ⟨a, priceText, classes, availText, d, rfl, rfl, rfl, rfl,
                hd, hpp, rfl, rfl, rfl, rfl, rfl, rfl⟩

/-- A card with no price node can only raise `MalformedItemError`:
either at the `art.h3.a` access or at the price access itself. -/
theorem processCard_no_price (env : Env) (url : String) (art : Card)
    (h : art.priceText = none) :
    processCard env url art = .error .malformedItem := by
  unfold processCard
  cases art.anchor with
  | none => rfl
  | some a => rw [h]

/-- A successful `processCards` run visited every card successfully:
each output row stems from one input card. -/
theorem processCards_ok_inv (env : Env) (url : String) :
    ∀ (cards : List Card) (items : List CatalogItem),
      processCards env url cards = .ok items →
      ∀ it ∈ items, ∃ card ∈ cards, processCard env url card = .ok it := by
  intro cards
  induction cards with
  | nil =>
    intro items h it hit
    unfold processCards at h
    simp only [Except.ok.injEq] at h
    subst h
    simp at hit
  | cons art rest ih =>
    intro items h it hit
    unfold processCards at h
    cases hc : processCard env url art with
    | error e => simp only [hc] at h; exact absurd h (by simp)
    | ok item =>
      simp only [hc] at h
      cases hr : processCards env url rest with
      | error e => simp only [hr] at h; exact absurd h (by simp)
      | ok items' =>
        simp only [hr] at h
        simp only [Except.ok.injEq] at h
        subst h
        rcases List.mem_cons.mp hit with h1 | h2
        · exact ⟨art, List.mem_cons_self art rest, h1 ▸ hc⟩
        · obtain ⟨card, hcm, hce⟩ := ih items' hr it h2
          exact ⟨card, List.mem_cons_of_mem art hcm, hce⟩

/-- If some card of the page fails, the whole page fails. -/
theorem processCards_mem_error (env : Env) (url : String) :
    ∀ (cards : List Card) (card : Card), card ∈ cards →
      (∀ items, processCard env url card ≠ .ok items) →
      ∃ e, processCards env url cards = .error e := by
  intro cards
  induction cards with
  | nil => intro card hm; simp at hm
  | cons art rest ih =>
    intro card hm hfail
    rcases List.mem_cons.mp hm with h1 | h2
    · subst h1
      cases hc : processCard env url card with
      | error e => exact ⟨e, by unfold processCards; rw [hc]⟩
      | ok item => exact absurd hc (hfail item)
    · cases hc : processCard env url art with
      | error e => exact ⟨e, by unfold processCards; rw [hc]⟩
      | ok item =>
        obtain ⟨e, he⟩ := ih card h2 hfail
        exact ⟨e, by unfold processCards; rw [hc, he]⟩

/-- Every row of a finished crawl either was in the accumulator already
or came out of `processCard` for a card of some fetched list page. -/
theorem crawlSteps_ok_inv (env : Env) (P : CatalogItem → Prop)
    (hP : ∀ url doc card item, env url = some doc → card ∈ doc.cards →
      processCard env url card = .ok item → P item) :
    ∀ (fuel : Nat) (url : String) (rows res : List CatalogItem),
      (crawlSteps env fuel url rows).2 = some (.ok res) →
      ∀ it ∈ res, it ∈ rows ∨ P it := by
  intro fuel
  induction fuel with
  | zero => intro url rows res h; exact absurd h (by simp [crawlSteps])
  | succ n ih =>
    intro url rows res h it hit
    unfold crawlSteps at h
    cases he : env url with
    | none => simp only [he] at h; exact absurd h (by simp)
    | some soup =>
      simp only [he] at h
      cases hc : processCards env url soup.cards with
      | error e => simp only [hc] at h; exact absurd h (by simp)
      | ok items =>
        simp only [hc] at h
        cases hn : soup.nextA with
        | none =>
          simp only [hn] at h
          simp only [Option.some.injEq, Except.ok.injEq] at h
          subst h
          rcases List.mem_append.mp hit with h1 | h2
          · exact Or.inl h1
          · obtain ⟨card, hcm, hce⟩ := processCards_ok_inv env url soup.cards items hc it h2
            exact Or.inr (hP url soup card it he hcm hce)
        | some href? =>
          simp only [hn] at h
          rcases ih (urljoin url (href?.getD "")) (rows ++ items) res h it hit with h1 | h2
          · rcases List.mem_append.mp h1 with ha | hb
            · exact Or.inl ha
            · obtain ⟨card, hcm, hce⟩ := processCards_ok_inv env url soup.cards items hc it hb
              exact Or.inr (hP url soup card it he hcm hce)
          · exact Or.inr h2

theorem dropWhile_head_not {α : Type} (p : α → Bool) :
    ∀ (l : List α) (c : α) (rest : List α), l.dropWhile p = c :: rest → p c = false := by
  intro l
  induction l with
  | nil => intro c rest h; simp [List.dropWhile] at h
  | cons a l ih =>
    intro c rest h
    by_cases hp : p a = true
    · rw [List.dropWhile_cons_of_pos hp] at h; exact ih c rest h
    · rw [List.dropWhile_cons_of_neg hp] at h
      cases h
      simpa using hp

theorem dropWhile_append_of_all {α : Type} (p : α → Bool) (l1 l2 : List α)
    (h : ∀ x ∈ l1, p x = true) : (l1 ++ l2).dropWhile p = l2.dropWhile p := by
  induction l1 with
  | nil => simp
  | cons a l ih =>
    rw [List.cons_append, List.dropWhile_cons_of_pos (h a (List.mem_cons_self a l))]
    exact ih (fun x hx => h x (List.mem_cons_of_mem a hx))

theorem takeWhile_append_of_all {α : Type} (p : α → Bool) (l1 l2 : List α)
    (h : ∀ x ∈ l1, p x = true) : (l1 ++ l2).takeWhile p = l1 ++ l2.takeWhile p := by
  induction l1 with
  | nil => simp
  | cons a l ih =>
    rw [List.cons_append, List.takeWhile_cons_of_pos (h a (List.mem_cons_self a l)),
      ih (fun x hx => h x (List.mem_cons_of_mem a hx))]
    rfl

theorem pyFloat_eq_decimal (s : List Char) (hs : ∀ c ∈ s, c.isDigit ∨ c = '.') :
    pyFloat s = if isValidDecimal s then some (decimalValue s) else none := by
  have key := List.takeWhile_append_dropWhile (fun c => c != '.') s
  unfold pyFloat
  cases hdw : s.dropWhile (fun c => c != '.') with
  | nil =>
    rw [hdw, List.append_nil] at key
    by_cases hemp : s = []
    · subst hemp; simp [isValidDecimal]
    · have hdig : ∀ c ∈ s, c.isDigit := by
        intro c hc
        rcases hs c hc with h | h
        · exact h
        · exfalso
          rw [← key] at hc
          have := List.mem_takeWhile_imp hc
          rw [h] at this
          simp at this
      have hval : isValidDecimal s = true := by
        unfold isValidDecimal
        refine Bool.and_eq_true _ _ ▸ ⟨?_, ?_⟩
        · rcases List.exists_mem_of_ne_nil s hemp with ⟨c, hc⟩
          exact List.any_eq_true.mpr ⟨c, hc, hdig c hc⟩
        · have h0 : s.count '.' = 0 := List.count_eq_zero.mpr (fun hmem => by
            have := hdig '.' hmem; simp at this)
          simp [h0]
      have hfr : fracLength s = 0 := by unfold fracLength; rw [hdw]
      have hfl : s.filter (fun c => c.isDigit) = s :=
        List.filter_eq_self.mpr (fun c hc => hdig c hc)
      simp [hemp, hval, decimalValue, hfr, hfl]
  | cons c frac =>
    have hcfalse : (c != '.') = false := dropWhile_head_not _ s c frac hdw
    have hcdot : c = '.' := by simpa using hcfalse
    subst hcdot
    rw [hdw] at key
    have htwdig : ∀ x ∈ s.takeWhile (fun c => c != '.'), x.isDigit := by
      intro x hx
      rcases hs x (List.takeWhile_subset _ hx) with h | h
      · exact h
      · exfalso; have := List.mem_takeWhile_imp hx; rw [h] at this; simp at this
    have hfracsub : ∀ x ∈ frac, x ∈ s := by
      intro x hx
      rw [← key]
      exact List.mem_append_right _ (List.mem_cons_of_mem _ hx)
    -- from here on, work over tw and frac only
    rw [← key]
    generalize htw : s.takeWhile (fun c => c != '.') = tw at *
    cases hfa : frac.any (fun x => x == '.') with
    | true =>
      have hdot : '.' ∈ frac := by
        rcases List.any_eq_true.mp hfa with ⟨x, hx, hxe⟩
        have hxd : x = '.' := by simpa using hxe
        rwa [hxd] at hx
      have hcount : ¬ ((tw ++ '.' :: frac).count '.' ≤ 1) := by
        rw [List.count_append, List.count_cons_self]
        have h1 : 0 < List.count '.' frac := List.count_pos_iff.mpr hdot
        omega
      have hval : isValidDecimal (tw ++ '.' :: frac) = false := by
        unfold isValidDecimal
        have h2 : decide (List.count '.' (tw ++ '.' :: frac) ≤ 1) = false := by
          simpa using hcount
        rw [h2, Bool.and_false]
      simp [hfa, hval]
    | false =>
      have hnodot : '.' ∉ frac := by
        intro hmem
        have : frac.any (fun x => x == '.') = true := List.any_eq_true.mpr ⟨'.', hmem, by simp⟩
        rw [hfa] at this
        exact absurd this (by simp)
      have hfracdig : ∀ x ∈ frac, x.isDigit := by
        intro x hx
        rcases hs x (hfracsub x hx) with h | h
        · exact h
        · exact absurd (h ▸ hx) hnodot
      by_cases hboth : tw = [] ∧ frac = []
      · rw [hboth.1, hboth.2]
        decide
      · have hdigit : ∃ x ∈ tw ++ '.' :: frac, x.isDigit := by
          rcases Decidable.not_and_iff_or_not.mp hboth with h | h
          · rcases List.exists_mem_of_ne_nil tw h with ⟨x, hx⟩
            exact ⟨x, List.mem_append_left _ hx, htwdig x (htw ▸ hx)⟩
          · rcases List.exists_mem_of_ne_nil frac h with ⟨x, hx⟩
            exact ⟨x, List.mem_append_right _ (List.mem_cons_of_mem _ hx), hfracdig x hx⟩
        have hval : isValidDecimal (tw ++ '.' :: frac) = true := by
          unfold isValidDecimal
          refine Bool.and_eq_true _ _ ▸ ⟨?_, ?_⟩
          · exact List.any_eq_true.mpr hdigit
          · have h0 : List.count '.' tw = 0 := List.count_eq_zero.mpr (fun hmem => by
              have := htwdig '.' (htw ▸ hmem); simp at this)
            have h1 : List.count '.' frac = 0 := List.count_eq_zero.mpr hnodot
            rw [List.count_append, List.count_cons_self]
            simp [h0, h1]
        have hfr : fracLength (tw ++ '.' :: frac) = frac.length := by
          unfold fracLength
          rw [dropWhile_append_of_all _ tw _ (fun x hx => by
            have := htwdig x (htw ▸ hx)
            simp only [bne_iff_ne, ne_eq, decide_eq_true_eq]
            intro hx'
            rw [hx'] at this
            simp at this)]
          rw [List.dropWhile_cons_of_neg (by simp)]
        have hfl : (tw ++ '.' :: frac).filter (fun c => c.isDigit) = tw ++ frac := by
          rw [List.filter_append]
          have h1 : tw.filter (fun c => c.isDigit) = tw :=
            List.filter_eq_self.mpr (fun x hx => htwdig x (htw ▸ hx))
          have h2 : ('.' :: frac).filter (fun c => c.isDigit) = frac := by
            rw [List.filter_cons_of_neg (by simp)]
            exact List.filter_eq_self.mpr (fun x hx => hfracdig x hx)
          rw [h1, h2]
        have htk : (tw ++ '.' :: frac).takeWhile (fun c => c != '.') = tw := by
          rw [takeWhile_append_of_all _ tw _ (fun x hx => by
            have := htwdig x hx
            simp only [bne_iff_ne, ne_eq, decide_eq_true_eq]
            intro hx'
            rw [hx'] at this
            simp at this)]
          rw [List.takeWhile_cons_of_neg (by simp)]
          simp
        simp [htk, hfa, hval, hboth, decimalValue, hfr, hfl]

/-- A rational built from natural numerator and denominator is ≥ 0. -/
theorem mkRat_natCast_nonneg (n d : Nat) : (0 : ℚ) ≤ mkRat n d := by
  rw [Rat.mkRat_eq_div]
  positivity

/-- Whenever `parse_price` succeeds, its value is non-negative. -/
theorem parse_price_nonneg (text : String) (q : ℚ)
    (h : parse_price text = some q) : 0 ≤ q := by
  unfold parse_price pyFloat at h
  split at h
  · split at h
    · exact absurd h (by simp)
    · simp only [Option.some.injEq] at h
      subst h
      exact mkRat_natCast_nonneg _ _
  · split at h
    · exact absurd h (by simp)
    · dsimp only at h
      split at h
      · exact absurd h (by simp)
      · simp only [Option.some.injEq] at h
        subst h
        exact mkRat_natCast_nonneg _ _
  · exact absurd h (by simp)

/-- One unfolding of the loop on a page with no next link: the loop
breaks after exactly this page. -/
theorem crawlSteps_last_page (env : Env) (fuel : Nat) (url : String)
    (doc : Doc) (rows items : List CatalogItem)
    (hdoc : env url = some doc) (hnext : doc.nextA = none)
    (hcards : processCards env url doc.cards = .ok items) :
    crawlSteps env (fuel + 1) url rows = ([url], some (.ok (rows ++ items))) := by
  unfold crawlSteps
  simp only [hdoc, hcards, hnext]

/-- One unfolding of the loop on a page with a next link: the loop
continues at the next URL resolved against the current page URL. -/
theorem crawlSteps_next_page (env : Env) (fuel : Nat) (url : String)
    (doc : Doc) (rows items : List CatalogItem) (href? : Option String)
    (hdoc : env url = some doc) (hnext : doc.nextA = some href?)
    (hcards : processCards env url doc.cards = .ok items) :
    crawlSteps env (fuel + 1) url rows =
      (url :: (crawlSteps env fuel (urljoin url (href?.getD "")) (rows ++ items)).1,
       (crawlSteps env fuel (urljoin url (href?.getD "")) (rows ++ items)).2) := by
  conv_lhs => rw [crawlSteps]
  simp only [hdoc, hcards, hnext]

/-- If the next-link chain ends within `n` fetches, the loop finishes
within `n` iterations (with a result or with an error). -/
theorem crawlSteps_terminates (env : Env) :
    ∀ (n : Nat) (url : String) (rows : List CatalogItem),
      nextChainEnds env n url = true → ((crawlSteps env n url rows).2).isSome := by
  intro n
  induction n with
  | zero => intro url rows h; simp [nextChainEnds] at h
  | succ m ih =>
    intro url rows h
    unfold nextChainEnds at h
    unfold crawlSteps
    cases he : env url with
    | none => simp [he]
    | some doc =>
      simp only [he] at h ⊢
      cases hc : processCards env url doc.cards with
      | error e => simp [hc]
      | ok items =>
        simp only [hc]
        cases hn : doc.nextA with
        | none => simp [hn]
        | some href? =>
          simp only [hn] at h ⊢
          exact ih _ _ h

/-- In `envLoop`, the loop refetches `loopUrl` once per unit of fuel and
never finishes. -/
theorem crawlSteps_envLoop_diverges :
    ∀ (fuel : Nat) (rows : List CatalogItem),
      crawlSteps envLoop fuel loopUrl rows = (List.replicate fuel loopUrl, none) := by
  intro fuel
  induction fuel with
  | zero => intro rows; rfl
  | succ m ih =>
    intro rows
    have hstep : crawlSteps envLoop (m + 1) loopUrl rows =
        (loopUrl :: (crawlSteps envLoop m (urljoin loopUrl "") (rows ++ [])).1,
         (crawlSteps envLoop m (urljoin loopUrl "") (rows ++ [])).2) := rfl
    rw [hstep, urljoin_empty_ref, List.append_nil, ih]
    simp [List.replicate_succ]

/-! ## Claim theorems -/

/-- C1 counterexample: resolving `../a-light-in-the-attic_1000/index.html`
against `http://example.com/catalogue/page-2.html` does NOT give
`.../catalogue/a-light-in-the-attic_1000/index.html` — the `..` climbs
out of `/catalogue/` — and for this link resolving against the site
root gives the very same result, so the two bases are not distinguished
by it. -/
theorem resolution_example_refuted :
    (urljoin "http://example.com/catalogue/page-2.html"
        "../a-light-in-the-attic_1000/index.html" ≠
      "http://example.com/catalogue/a-light-in-the-attic_1000/index.html") ∧
    (urljoin "http://example.com/" "../a-light-in-the-attic_1000/index.html" =
      urljoin "http://example.com/catalogue/page-2.html"
        "../a-light-in-the-attic_1000/index.html") := by
  constructor
  · decide
  · decide

/-- C1 (amended): the walker resolves every discovered link (a card's
detail link, and the next-page link) against the URL of the page it was
found on; for base `http://example.com/catalogue/page-2.html` and link
`../a-light-in-the-attic_1000/index.html` the result is
`http://example.com/a-light-in-the-attic_1000/index.html` (for this
particular link the site root gives the same result); the choice of
base is observable on the link `a-light-in-the-attic_1000/index.html`,
which resolves differently against the two bases. -/
theorem links_resolved_against_current_page :
    (∀ (env : Env) (url : String) (art : Card) (a : Anchor) (item : CatalogItem),
      art.anchor = some a → processCard env url art = .ok item →
      item.detailURL = urljoin url (a.hrefAttr.getD "")) ∧
    (∀ (env : Env) (fuel : Nat) (url : String) (doc : Doc)
        (rows items : List CatalogItem) (href? : Option String),
      env url = some doc → doc.nextA = some href? →
      processCards env url doc.cards = .ok items →
      crawlSteps env (fuel + 1) url rows =
        (url :: (crawlSteps env fuel (urljoin url (href?.getD "")) (rows ++ items)).1,
         (crawlSteps env fuel (urljoin url (href?.getD "")) (rows ++ items)).2)) ∧
    (urljoin "http://example.com/catalogue/page-2.html"
        "../a-light-in-the-attic_1000/index.html" =
      "http://example.com/a-light-in-the-attic_1000/index.html") ∧
    (urljoin "http://example.com/catalogue/page-2.html"
        "a-light-in-the-attic_1000/index.html" ≠
      urljoin "http://example.com/" "a-light-in-the-attic_1000/index.html") := by
  refine ⟨?_, ?_, by decide, by decide⟩
  · intro env url art a item ha hok
    obtain ⟨a', _, _, _, _, h1, _, _, _, _, _, _, h8, _, _, _, _⟩ :=
      processCard_ok_inv env url art item hok
    rw [ha] at h1
    cases h1
    exact h8
  · intro env fuel url doc rows items href? hdoc hnext hcards
    exact crawlSteps_next_page env fuel url doc rows items href? hdoc hnext hcards

/-- Witness for C1's amended theorem at the fixture environments. -/
theorem links_resolved_witness :
    itemA.detailURL =
      urljoin "http://books.toscrape.com/" "a-light-in-the-attic_1000/index.html" ∧
    crawlSteps envP 2 "http://shop.example/catalogue/page-1.html" [] =
      (["http://shop.example/catalogue/page-1.html",
        "http://shop.example/catalogue/page-2.html"], some (.ok [])) := by
  constructor
  · exact links_resolved_against_current_page.1 envA "http://books.toscrape.com/"
      cardA { titleAttr := some " A Light in the Attic "
            , hrefAttr := some "a-light-in-the-attic_1000/index.html" }
      itemA rfl rfl
  · have h := links_resolved_against_current_page.2.1 envP 1
      "http://shop.example/catalogue/page-1.html" pageDoc1 [] [] (some "page-2.html")
      rfl rfl rfl
    exact h.trans (by rfl)

/-- C2: a list-page card with no price node is fatal — `processCard`
raises `MalformedItemError` and the whole crawl aborts with an error on
any page containing such a card — while a detail page with no
product-attributes table is non-fatal: enrichment succeeds and the
item's Identifier (UPC) is the empty string. -/
theorem missing_structure_fatality :
    (∀ (env : Env) (url : String) (art : Card), art.priceText = none →
      processCard env url art = .error .malformedItem) ∧
    (∀ (env : Env) (fuel : Nat) (url : String) (doc : Doc) (card : Card)
        (rows : List CatalogItem),
      env url = some doc → card ∈ doc.cards → card.priceText = none →
      ∃ e, crawlSteps env (fuel + 1) url rows = ([url], some (.error e))) ∧
    (∀ (env : Env) (url : String) (art : Card) (item : CatalogItem) (d : Doc),
      processCard env url art = .ok item → env item.detailURL = some d →
      d.upcCell = none → item.upc = "") := by
  refine ⟨?_, ?_, ?_⟩
  · intro env url art h
    exact processCard_no_price env url art h
  · intro env fuel url doc card rows hdoc hmem hnp
    obtain ⟨e, he⟩ := processCards_mem_error env url doc.cards card hmem
      (fun items hok => by
        rw [processCard_no_price env url card hnp] at hok
        exact absurd hok (by simp))
    refine ⟨e, ?_⟩
    unfold crawlSteps
    simp only [hdoc, he]
  · intro env url art item d hok hd hupc
    obtain ⟨a, pt, cls, av, d', _, _, _, _, h5, _, _, h8, _, _, h11, _⟩ :=
      processCard_ok_inv env url art item hok
    rw [h8] at hd
    rw [h5] at hd
    cases hd
    rw [h11, hupc]

/-- Witness for C2 at the fixture environments. -/
theorem missing_structure_fatality_witness :
    processCard envNP "http://t2/" cardNP = .error .malformedItem ∧
    (∃ e, crawlSteps envNP 1 "http://t2/" [] = (["http://t2/"], some (.error e))) ∧
    itemB.upc = "" := by
  refine ⟨?_, ?_, ?_⟩
  · exact missing_structure_fatality.1 envNP "http://t2/" cardNP rfl
  · exact missing_structure_fatality.2.1 envNP 0 "http://t2/" listNP cardNP []
      rfl (by simp [listNP]) rfl
  · exact missing_structure_fatality.2.2 envB "http://example.org/shop/index.html"
      cardB itemB listDocB rfl rfl rfl

/-- C3: when the current list page has no next link, the walk fetches no
further list page — the trace of list fetches is exactly `[url]` — and
finishes, yielding the rows accumulated so far plus this page's items. -/
theorem pagination_done_without_next (env : Env) (fuel : Nat) (url : String)
    (doc : Doc) (rows items : List CatalogItem)
    (hdoc : env url = some doc) (hnext : doc.nextA = none)
    (hcards : processCards env url doc.cards = .ok items) :
    crawlSteps env (fuel + 1) url rows = ([url], some (.ok (rows ++ items))) :=
  crawlSteps_last_page env fuel url doc rows items hdoc hnext hcards

/-- Witness for C3 at the fixture environment. -/
theorem pagination_done_without_next_witness :
    crawlSteps envA 1 "http://books.toscrape.com/" [] =
      (["http://books.toscrape.com/"], some (.ok [itemA])) := by
  have h := pagination_done_without_next envA 0 "http://books.toscrape.com/"
    listDocA [] [itemA] rfl rfl (by rfl)
  exact h.trans (by rfl)

/-- C4: `parsePrice` strips every character that is not a decimal digit
or a decimal point; if the remainder is a valid decimal numeral it
returns its numeric value (`"£53.74"` ↦ 53.74), otherwise — empty after
stripping, multiple decimal points, a lone dot — it fails with
`ParseError` (modelled as `none`). -/
theorem parse_price_strips_then_parses :
    (∀ text : String,
      parse_price text =
        if isValidDecimal (stripNonNumeric text) then
          some (decimalValue (stripNonNumeric text))
        else none) ∧
    parse_price "£53.74" = some (mkRat 5374 100) ∧
    parse_price "£--" = none := by
  refine ⟨?_, by decide, by decide⟩
  intro text
  apply pyFloat_eq_decimal
  intro c hc
  have hp := List.of_mem_filter hc
  rcases Bool.or_eq_true _ _ |>.mp hp with h | h
  · exact Or.inl h
  · exact Or.inr (by simpa using h)

/-- C5: every price `parsePrice` accepts is ≥ 0, hence every row of a
completed crawl has Price ≥ 0. -/
theorem price_nonneg_invariant :
    (∀ (text : String) (q : ℚ), parse_price text = some q → 0 ≤ q) ∧
    (∀ (env : Env) (fuel : Nat) (start : String) (res : List CatalogItem),
      scrape_books env fuel start = some (.ok res) → ∀ it ∈ res, 0 ≤ it.price) := by
  constructor
  · exact parse_price_nonneg
  · intro env fuel start res h it hit
    have hmain := crawlSteps_ok_inv env (fun it => 0 ≤ it.price)
      (fun url doc card item hdoc hmem hok => by
        obtain ⟨a, pt, cls, av, d, _, _, _, _, _, h6, _, _, _, _, _, _⟩ :=
          processCard_ok_inv env url card item hok
        exact parse_price_nonneg pt item.price h6)
      fuel start [] res h it hit
    rcases hmain with h1 | h2
    · simp at h1
    · exact h2

/-- Witness for C5 at concrete inputs. -/
theorem price_nonneg_invariant_witness :
    (0 : ℚ) ≤ mkRat 5374 100 ∧ (0 : ℚ) ≤ itemA.price := by
  constructor
  · exact price_nonneg_invariant.1 "£53.74" (mkRat 5374 100) (by decide)
  · exact price_nonneg_invariant.2 envA 2 "http://books.toscrape.com/" [itemA]
      rfl itemA (by simp)

/-- C6 counterexample: a crawl over a page whose card anchor carries no
`title` attribute completes successfully, and its row's Title is the
empty string — the non-emptiness invariant fails on the code. -/
theorem empty_title_possible :
    scrape_books envNT 2 "http://t/" = some (.ok [itemNT]) ∧ itemNT.title = "" := by
  constructor
  · rfl
  · rfl

/-- C6 (amended): Title is the trim of the card anchor's `title`
attribute and the code does not enforce non-emptiness; every row of a
completed crawl has a non-empty Title provided every card anchor in the
environment carries a title attribute that is non-empty after trim. -/
theorem title_nonempty_under_titled_env (env : Env)
    (henv : ∀ (u : String) (doc : Doc) (card : Card) (a : Anchor),
      env u = some doc → card ∈ doc.cards → card.anchor = some a →
      pyStrip (a.titleAttr.getD "") ≠ "")
    (fuel : Nat) (start : String) (res : List CatalogItem)
    (h : scrape_books env fuel start = some (.ok res)) :
    ∀ it ∈ res, it.title ≠ "" := by
  intro it hit
  have hmain := crawlSteps_ok_inv env (fun it => it.title ≠ "")
    (fun url doc card item hdoc hmem hok => by
      obtain ⟨a, pt, cls, av, d, h1, _, _, _, _, _, h7, _, _, _, _, _⟩ :=
        processCard_ok_inv env url card item hok
      rw [h7]
      exact henv url doc card a hdoc hmem h1)
    fuel start [] res h it hit
  rcases hmain with h1 | h2
  · simp at h1
  · exact h2

/-- Witness for C6's amended theorem at the fixture environment. -/
theorem title_nonempty_witness : itemA.title ≠ "" := by
  refine title_nonempty_under_titled_env envA ?_ 2 "http://books.toscrape.com/"
    [itemA] rfl itemA (by simp)
  intro u doc card a hu hc ha
  unfold envA at hu
  split at hu
  · cases hu
    simp only [listDocA] at hc
    rcases List.mem_singleton.mp hc with rfl
    simp only [cardA] at ha
    cases ha
    decide
  · split at hu
    · cases hu
      simp [detailDocA] at hc
    · exact absurd hu (by simp)

/-- C7: the Category of an enriched item equals the element at index 2
(zero-based) of the detail page's breadcrumb-trail label sequence when
that sequence has at least 3 elements, and the fixed fallback `"Books"`
otherwise — a purely positional choice. -/
theorem category_positional (env : Env) (url : String) (art : Card)
    (item : CatalogItem) (d : Doc)
    (hok : processCard env url art = .ok item)
    (hd : env item.detailURL = some d) :
    item.category = categoryOfTrail d.crumbs := by
  obtain ⟨a, pt, cls, av, d', _, _, _, _, h5, _, _, h8, _, _, _, h12⟩ :=
    processCard_ok_inv env url art item hok
  rw [h8] at hd
  rw [h5] at hd
  cases hd
  rw [h12]
  unfold categoryOfTrail
  by_cases hlen : 3 ≤ d.crumbs.length
  · rw [if_pos hlen, if_pos hlen,
      List.getD_eq_getElem _ _ (by omega), List.getD_eq_getElem _ _ (by omega)]
  · rw [if_neg hlen, if_neg hlen]

/-- Witness for C7 at the fixture environment. -/
theorem category_positional_witness :
    itemA.category = categoryOfTrail detailDocA.crumbs := by
  exact category_positional envA "http://books.toscrape.com/" cardA itemA
    detailDocA rfl rfl

/-- C8: the crawl is deterministic in its page environment: two runs
against the same unchanged environment produce identical ResultSets, in
contents and order. -/
theorem crawl_deterministic (env : Env) (fuel : Nat) (start : String)
    (r₁ r₂ : Option (Except ScrapeError (List CatalogItem)))
    (h₁ : r₁ = scrape_books env fuel start)
    (h₂ : r₂ = scrape_books env fuel start) : r₁ = r₂ :=
  h₁.trans h₂.symm

/-- Witness for C8: two concrete runs at the fixture environment. -/
theorem crawl_deterministic_witness :
    scrape_books envA 2 "http://books.toscrape.com/" = some (.ok [itemA]) ∧
    (some (.ok [itemA]) : Option (Except ScrapeError (List CatalogItem))) =
      some (.ok [itemA]) := by
  constructor
  · rfl
  · exact crawl_deterministic envA 2 "http://books.toscrape.com/" _ _ rfl rfl

/-- C9: under the precondition that iterating next-link resolution from
the start URL ends within `n` fetches (reaching a page with no next
link, or a failing fetch, which also stops the walk), the walk finishes
within `n` loop iterations; without the precondition it need not
terminate: in `envLoop`, whose next link carries no href and therefore
resolves to the page's own URL, the walk refetches `loopUrl` once per
unit of fuel, forever. -/
theorem termination_iff_finite_chain :
    (∀ (env : Env) (n : Nat) (url : String) (rows : List CatalogItem),
      nextChainEnds env n url = true → ((crawlSteps env n url rows).2).isSome) ∧
    (∀ (fuel : Nat) (rows : List CatalogItem),
      crawlSteps envLoop fuel loopUrl rows = (List.replicate fuel loopUrl, none)) :=
  ⟨fun env => crawlSteps_terminates env, crawlSteps_envLoop_diverges⟩

/-- Witness for C9 at concrete fuel. -/
theorem termination_iff_finite_chain_witness :
    ((crawlSteps envA 1 "http://books.toscrape.com/" []).2).isSome ∧
    crawlSteps envLoop 3 loopUrl [] = ([loopUrl, loopUrl, loopUrl], none) := by
  constructor
  · exact termination_iff_finite_chain.1 envA 1 "http://books.toscrape.com/" []
      (by decide)
  · exact (termination_iff_finite_chain.2 3 []).trans (by rfl)

/-- C10: a card whose title anchor has no href attribute (or an empty
one) is not rejected: the empty reference resolves to the listing
page's own URL, so the DetailURL equals the listing page's URL and
enrichment (UPC, Category) reads from the listing page's document
itself. -/
theorem missing_href_self_enrichment :
    (∀ u : String, urljoin u "" = u) ∧
    (∀ (env : Env) (url : String) (art : Card) (a : Anchor) (item : CatalogItem),
      art.anchor = some a → a.hrefAttr.getD "" = "" →
      processCard env url art = .ok item →
      item.detailURL = url ∧
      (∀ d : Doc, env url = some d →
        item.upc = (match d.upcCell with | some t => t | none => "") ∧
        item.category = (if 3 ≤ d.crumbs.length then d.crumbs.getD 2 "" else "Books"))) := by
  constructor
  · exact urljoin_empty_ref
  · intro env url art a item ha hhref hok
    obtain ⟨a', pt, cls, av, d', h1, _, _, _, h5, _, _, h8, _, _, h11, h12⟩ :=
      processCard_ok_inv env url art item hok
    rw [ha] at h1
    cases h1
    rw [hhref, urljoin_empty_ref] at h5 h8
    refine ⟨h8, ?_⟩
    intro d hd
    rw [h5] at hd
    cases hd
    exact ⟨h11, h12⟩

/-- Witness for C10 at the fixture environment. -/
theorem missing_href_self_enrichment_witness :
    urljoin "http://example.org/shop/index.html" "" = "http://example.org/shop/index.html" ∧
    itemB.detailURL = "http://example.org/shop/index.html" ∧
    itemB.upc = "" ∧ itemB.category = "Books" := by
  obtain ⟨hju, hrest⟩ := missing_href_self_enrichment
  obtain ⟨hurl, hd⟩ := hrest envB "http://example.org/shop/index.html" cardB
    { titleAttr := some "Untitled Link", hrefAttr := none } itemB rfl rfl rfl
  obtain ⟨hupc, hcat⟩ := hd listDocB rfl
  exact ⟨hju _, hurl, hupc, hcat⟩

end BooksScraper
